import Mathlib

/-!
Verification of the incremental checkpoint synchronization subsystem
(`deploymentDiffState` and friends from the `httpstate` package).

Byte sequences (`json.RawMessage` payloads) are modelled as `List Nat`;
a Go `json.RawMessage` value, which may be `nil`, is modelled as
`Option (List Nat)` with `none` standing for `nil` and `some bs` for a
non-nil slice holding bytes `bs`.
-/

namespace Httpstate

abbrev Bytes := List Nat

/-- Go `len` on a possibly-nil byte slice: `len(nil) = 0`. -/
def rawLen : Option Bytes → Nat
  | none => 0
  | some bs => bs.length

/-- Go `string(b)` conversion of a possibly-nil byte slice: `nil` reads as empty. -/
def rawBytes : Option Bytes → Bytes
  | none => []
  | some bs => bs

/-- Modelled from the spec: one edit operation of the delta wire format
(§6: "a serialized ordered sequence of edit operations, each operation
identifying a contiguous run of equal, insert, or delete text").  The
actual edit operations are produced by the external `myers.ComputeEdits`
library, whose source is not part of this repository; following the
spec's "line- or token-granularity" wording, tokens here are single
bytes. -/
inductive Edit where
  | equal (b : Nat)
  | delete (b : Nat)
  | insert (b : Nat)
deriving Repr, DecidableEq

/-- Number of non-`equal` operations in an edit script (the cost the diff
algorithm minimizes between its two candidate branches). -/
def editCost : List Edit → Nat
  | [] => 0
  | Edit.equal _ :: es => editCost es
  | Edit.delete _ :: es => 1 + editCost es
  | Edit.insert _ :: es => 1 + editCost es

/-- Modelled from the spec: the Delta Computer (§2, §4.3).  The external
`myers.ComputeEdits` is not part of this repository; this is a
cost-minimizing insert/delete/equal edit script over byte tokens,
"sufficient to deterministically reconstruct `after` given `before`".
The first argument is recursion fuel; every recursive call consumes one
token from one of the two sequences, so any fuel of at least
`xs.length + ys.length` yields the fuel-independent result (the
zero-fuel value on two nonempty sequences is never reached from
`computeDiff`). -/
def computeDiffFuel : Nat → Bytes → Bytes → List Edit
  | _, [], ys => ys.map Edit.insert
  | _, x :: xs, [] => (x :: xs).map Edit.delete
  | 0, _ :: _, _ :: _ => []
  | Nat.succ n, x :: xs, y :: ys =>
    if x = y then
      Edit.equal x :: computeDiffFuel n xs ys
    else
      let delFirst := Edit.delete x :: computeDiffFuel n xs (y :: ys)
      let insFirst := Edit.insert y :: computeDiffFuel n (x :: xs) ys
      if editCost delFirst ≤ editCost insFirst then delFirst else insFirst

/-- Modelled from the spec: the edit script from `before` tokens to
`after` tokens (§4.3 step 2). -/
def computeDiff (xs ys : Bytes) : List Edit :=
  computeDiffFuel (xs.length + ys.length) xs ys

/-- Modelled from the spec: the receiving side's replay of an edit script
against its stored `before` (§6: "apply `delta` to its own stored
before"). Fails on any mismatch between the script and `before`. -/
def applyEdits : List Edit → Bytes → Option Bytes
  | [], [] => some []
  | [], _ :: _ => none
  | Edit.equal _ :: _, [] => none
  | Edit.equal b :: es, x :: xs =>
    if b = x then (applyEdits es xs).map (x :: ·) else none
  | Edit.delete _ :: _, [] => none
  | Edit.delete b :: es, x :: xs =>
    if b = x then applyEdits es xs else none
  | Edit.insert b :: es, xs => (applyEdits es xs).map (b :: ·)

theorem applyEdits_map_insert (ys : Bytes) :
    applyEdits (ys.map Edit.insert) [] = some ys := by
  induction ys with
  | nil => rfl
  | cons y ys ih => simp [applyEdits, ih]

theorem applyEdits_map_delete (xs : Bytes) :
    applyEdits (xs.map Edit.delete) xs = some [] := by
  induction xs with
  | nil => rfl
  | cons x xs ih => simp [applyEdits, ih]

theorem applyEdits_computeDiffFuel (n : Nat) (xs ys : Bytes)
    (h : xs.length + ys.length ≤ n) :
    applyEdits (computeDiffFuel n xs ys) xs = some ys := by
  induction n generalizing xs ys with
  | zero =>
    cases xs with
    | nil => exact applyEdits_map_insert ys
    | cons x xs =>
      cases ys with
      | nil => exact applyEdits_map_delete (x :: xs)
      | cons y ys => simp at h
  | succ n ih =>
    cases xs with
    | nil => exact applyEdits_map_insert ys
    | cons x xs =>
      cases ys with
      | nil => exact applyEdits_map_delete (x :: xs)
      | cons y ys =>
        simp only [List.length_cons] at h
        rw [computeDiffFuel]
        by_cases hxy : x = y
        · subst hxy
          have := ih xs ys (by omega)
          simp [applyEdits, this]
        · simp only [if_neg hxy]
          have hd := ih xs (y :: ys) (by simp; omega)
          have hi := ih (x :: xs) ys (by simp; omega)
          split <;> simp [applyEdits, hd, hi]

/-- Round trip of the edit script itself: replaying `computeDiff xs ys`
against `xs` reconstructs `ys`. -/
theorem applyEdits_computeDiff (xs ys : Bytes) :
    applyEdits (computeDiff xs ys) xs = some ys :=
  applyEdits_computeDiffFuel (xs.length + ys.length) xs ys (Nat.le_refl _)

/-- Modelled from the spec: the wire encoding of one edit operation
(§6, "a stable, documented wire format"); the actual serializer is the
external `json.Marshal` over the library's edit type.  Each operation is
a tag byte (0 equal, 1 delete, 2 insert) followed by the token. -/
def encodeEdit : Edit → List Nat
  | Edit.equal b => [0, b]
  | Edit.delete b => [1, b]
  | Edit.insert b => [2, b]

/-- Wire encoding of a whole edit script. -/
def encodeEdits (es : List Edit) : List Nat :=
  (es.map encodeEdit).flatten

/-- Modelled from the spec: the receiving side's parse of the delta wire
format back into an edit script (§6). -/
def decodeEdits : List Nat → Option (List Edit)
  | [] => some []
  | 0 :: b :: rest => (decodeEdits rest).map (Edit.equal b :: ·)
  | 1 :: b :: rest => (decodeEdits rest).map (Edit.delete b :: ·)
  | 2 :: b :: rest => (decodeEdits rest).map (Edit.insert b :: ·)
  | _ => none

theorem encodeEdits_cons (e : Edit) (es : List Edit) :
    encodeEdits (e :: es) = encodeEdit e ++ encodeEdits es := by
  simp [encodeEdits]

/-- Decoding inverts encoding. -/
theorem decodeEdits_encodeEdits (es : List Edit) :
    decodeEdits (encodeEdits es) = some es := by
  induction es with
  | nil => rfl
  | cons e es ih =>
    rw [encodeEdits_cons]
    cases e <;> simp [encodeEdit, decodeEdits, ih]

/-- Modelled from the spec: applying a serialized delta to a stored
`before` snapshot (§6: the backend applies `delta` to its own stored
"before"): decode the wire format, then replay the edit script. -/
def applyDelta (delta : List Nat) (before : Bytes) : Option Bytes :=
  (decodeEdits delta).bind (fun es => applyEdits es before)

/-- The load-bearing round trip through the wire format. -/
theorem applyDelta_encodeEdits_computeDiff (xs ys : Bytes) :
    applyDelta (encodeEdits (computeDiff xs ys)) xs = some ys := by
  simp [applyDelta, decodeEdits_encodeEdits, applyEdits_computeDiff]

/-! ### SHA-256 and hex encoding

The source computes `sha256.Sum256(deployment)` and
`hex.EncodeToString(hash[:])` via the Go standard library; the standard
SHA-256 algorithm (FIPS 180-4) and lowercase hex encoding are
implemented here directly, on bytes modelled as `Nat` below 256 and
32-bit words modelled as `Nat` reduced modulo `2^32`. -/

/-- Truncation to a 32-bit word. -/
def w32 (n : Nat) : Nat := n % 4294967296

/-- Right rotation of a 32-bit word by `k` positions. -/
def rotr32 (k n : Nat) : Nat := w32 ((n >>> k) ||| (n <<< (32 - k)))

/-- The eight working registers / hash state words of SHA-256. -/
structure Sha256Regs where
  r0 : Nat
  r1 : Nat
  r2 : Nat
  r3 : Nat
  r4 : Nat
  r5 : Nat
  r6 : Nat
  r7 : Nat
deriving Repr, DecidableEq

/-- SHA-256 initial hash value (FIPS 180-4 §5.3.3), in decimal. -/
def sha256Init : Sha256Regs :=
  ⟨1779033703, 3144134277, 1013904242, 2773480762,
   1359893119, 2600822924, 528734635, 1541459225⟩

/-- SHA-256 round constants (FIPS 180-4 §4.2.2), in decimal. -/
def sha256K : List Nat :=
  [1116352408, 1899447441, 3049323471, 3921009573, 961987163,
   1508970993, 2453635748, 2870763221, 3624381080, 310598401,
   607225278, 1426881987, 1925078388, 2162078206, 2614888103,
   3248222580, 3835390401, 4022224774, 264347078, 604807628,
   770255983, 1249150122, 1555081692, 1996064986, 2554220882,
   2821834349, 2952996808, 3210313671, 3336571891, 3584528711,
   113926993, 338241895, 666307205, 773529912, 1294757372,
   1396182291, 1695183700, 1986661051, 2177026350, 2456956037,
   2730485921, 2820302411, 3259730800, 3345764771, 3516065817,
   3600352804, 4094571909, 275423344, 430227734, 506948616,
   659060556, 883997877, 958139571, 1322822218, 1537002063,
   1747873779, 1955562222, 2024104815, 2227730452, 2361852424,
   2428436474, 2756734187, 3204031479, 3329325298]

/-- Big-endian assembly of consecutive 4-byte groups into 32-bit words. -/
def bytesToWords : List Nat → List Nat
  | b0 :: b1 :: b2 :: b3 :: rest =>
    (((b0 * 256 + b1) * 256 + b2) * 256 + b3) :: bytesToWords rest
  | _ => []

/-- Extend a 16-word message block by `n` further schedule words
(FIPS 180-4 §6.2.2 step 1). -/
def extendSchedule : List Nat → Nat → List Nat
  | ws, 0 => ws
  | ws, Nat.succ n =>
    let i := ws.length
    let w15 := ws.getD (i - 15) 0
    let w2 := ws.getD (i - 2) 0
    let s0 := (rotr32 7 w15) ^^^ (rotr32 18 w15) ^^^ (w15 >>> 3)
    let s1 := (rotr32 17 w2) ^^^ (rotr32 19 w2) ^^^ (w2 >>> 10)
    extendSchedule (ws ++ [w32 (ws.getD (i - 16) 0 + s0 + ws.getD (i - 7) 0 + s1)]) n

/-- One SHA-256 compression round (FIPS 180-4 §6.2.2 step 3). -/
def sha256Round (r : Sha256Regs) (ki wi : Nat) : Sha256Regs :=
  let s1 := (rotr32 6 r.r4) ^^^ (rotr32 11 r.r4) ^^^ (rotr32 25 r.r4)
  let ch := (r.r4 &&& r.r5) ^^^ ((r.r4 ^^^ 4294967295) &&& r.r6)
  let temp1 := w32 (r.r7 + s1 + ch + ki + wi)
  let s0 := (rotr32 2 r.r0) ^^^ (rotr32 13 r.r0) ^^^ (rotr32 22 r.r0)
  let maj := (r.r0 &&& r.r1) ^^^ (r.r0 &&& r.r2) ^^^ (r.r1 &&& r.r2)
  let temp2 := w32 (s0 + maj)
  ⟨w32 (temp1 + temp2), r.r0, r.r1, r.r2, w32 (r.r3 + temp1), r.r4, r.r5, r.r6⟩

/-- Process one 64-byte chunk (FIPS 180-4 §6.2.2). -/
def processChunk (regs : Sha256Regs) (chunk : List Nat) : Sha256Regs :=
  let ws := extendSchedule (bytesToWords chunk) 48
  let t := (List.zip sha256K ws).foldl (fun r p => sha256Round r p.1 p.2) regs
  ⟨w32 (regs.r0 + t.r0), w32 (regs.r1 + t.r1), w32 (regs.r2 + t.r2), w32 (regs.r3 + t.r3),
   w32 (regs.r4 + t.r4), w32 (regs.r5 + t.r5), w32 (regs.r6 + t.r6), w32 (regs.r7 + t.r7)⟩

/-- Split a byte list into 64-byte chunks; the fuel argument bounds the
recursion depth (every step drops at least one element, so `l.length`
fuel always suffices and the zero-fuel value on a nonempty list is never
reached from `chunks64`). -/
def chunks64Go : Nat → List Nat → List (List Nat)
  | _, [] => []
  | 0, _ :: _ => []
  | Nat.succ n, b :: rest => ((b :: rest).take 64) :: chunks64Go n ((b :: rest).drop 64)

/-- Split a byte list into 64-byte chunks. -/
def chunks64 (l : List Nat) : List (List Nat) := chunks64Go l.length l

/-- Big-endian 8-byte encoding of a 64-bit length value. -/
def lenBytes8 (n : Nat) : List Nat :=
  [(n >>> 56) % 256, (n >>> 48) % 256, (n >>> 40) % 256, (n >>> 32) % 256,
   (n >>> 24) % 256, (n >>> 16) % 256, (n >>> 8) % 256, n % 256]

/-- SHA-256 message padding (FIPS 180-4 §5.1.1): a `0x80` byte, zeros to
56 mod 64, then the bit length as a 64-bit big-endian integer. -/
def padMessage (msg : List Nat) : List Nat :=
  msg ++ [128] ++ List.replicate ((119 - msg.length % 64) % 64) 0 ++ lenBytes8 (8 * msg.length)

/-- Big-endian 4-byte serialization of a 32-bit word. -/
def wordBytes4 (wo : Nat) : List Nat :=
  [(wo >>> 24) % 256, (wo >>> 16) % 256, (wo >>> 8) % 256, wo % 256]

/-- Go `sha256.Sum256`: the 32-byte SHA-256 digest of a byte sequence. -/
def sha256Sum (msg : List Nat) : List Nat :=
  let final := (chunks64 (padMessage msg)).foldl processChunk sha256Init
  wordBytes4 final.r0 ++ wordBytes4 final.r1 ++ wordBytes4 final.r2 ++ wordBytes4 final.r3 ++
    wordBytes4 final.r4 ++ wordBytes4 final.r5 ++ wordBytes4 final.r6 ++ wordBytes4 final.r7

/-- Lowercase hexadecimal digit, as produced by `hex.EncodeToString`. -/
def hexDigit (n : Nat) : Char :=
  if n < 10 then Char.ofNat (48 + n) else Char.ofNat (87 + n)

/-- Two lowercase hex characters for one byte. -/
def hexByte (b : Nat) : List Char :=
  [hexDigit (b / 16), hexDigit (b % 16)]

/-- Go `hex.EncodeToString`: lowercase hex encoding of a byte sequence. -/
def hexEncodeToString (bs : List Nat) : String :=
  String.mk ((bs.map hexByte).flatten)

/-- A SHA-256 digest always has exactly 32 bytes. -/
theorem sha256Sum_length (msg : List Nat) : (sha256Sum msg).length = 32 := by
  simp [sha256Sum, wordBytes4]

theorem hexBytes_flatten_length (bs : List Nat) :
    ((bs.map hexByte).flatten).length = 2 * bs.length := by
  induction bs with
  | nil => rfl
  | cons b bs ih =>
    simp [hexByte] at ih ⊢
    omega

/-- Hex encoding doubles the byte count. -/
theorem hexEncodeToString_length (bs : List Nat) :
    (hexEncodeToString bs).length = 2 * bs.length := by
  have h := hexBytes_flatten_length bs
  simpa [hexEncodeToString, String.length] using h

/-! ### The diff state tracker

Faithful embedding of `deploymentDiffState` and its methods.  Go methods
with a pointer receiver are modelled as functions returning the result
together with the post-call state; a method whose body contains no field
assignment returns its receiver unchanged.  The tracing spans and size
tags are diagnostic-only and are not modelled. -/

/-- The tracker's persistent record (`deploymentDiffState`).  Go `int`
fields are modelled as `Int`. -/
structure deploymentDiffState where
  lastSavedDeployment : Option Bytes
  sequenceNumber : Int
  minimalDiffSize : Int
deriving Repr, DecidableEq

/-- The per-call result record (`deploymentDiff`). -/
structure deploymentDiff where
  sequenceNumber : Int
  checkpointHash : String
  deploymentDelta : List Nat
deriving Repr, DecidableEq

instance : Inhabited deploymentDiff := ⟨⟨0, "", []⟩⟩

/-- The two kinds of error `Diff` can produce, each carrying the
formatted message the Go code builds with `fmt.Errorf`. -/
inductive DiffError where
  | precondition (msg : String)
  | encoding (msg : String)
deriving Repr, DecidableEq

/-- Constructor `newDeploymentDiffState`: fresh tracker; `lastSavedDeployment` is the
zero value `nil` and `sequenceNumber` starts at 1. -/
def newDeploymentDiffState (minimalDiffSize : Int) : deploymentDiffState :=
  { lastSavedDeployment := none
    sequenceNumber := 1
    minimalDiffSize := minimalDiffSize }

/-- Method `SequenceNumber()`: read-only accessor. -/
def SequenceNumber (dds : deploymentDiffState) : Int × deploymentDiffState :=
  (dds.sequenceNumber, dds)

/-- Method `CanDiff()`: true iff `lastSavedDeployment != nil`. -/
def CanDiff (dds : deploymentDiffState) : Bool × deploymentDiffState :=
  (dds.lastSavedDeployment.isSome, dds)

/-- Method `ShouldDiff(new)`: size-based heuristic gating. -/
def ShouldDiff (dds : deploymentDiffState) (new : Option Bytes) :
    Bool × deploymentDiffState :=
  if !(CanDiff dds).1 then
    (false, dds)
  else if (rawLen dds.lastSavedDeployment : Int) < dds.minimalDiffSize then
    (false, dds)
  else if (rawLen new : Int) < dds.minimalDiffSize then
    (false, dds)
  else
    (true, dds)

/-- Method `computeHash`: hex-encoded SHA-256 digest of the given bytes. -/
def computeHash (deployment : Bytes) : String :=
  hexEncodeToString (sha256Sum deployment)

/-- Method `computeEdits`, parameterized by the serializer used for the computed
edit script (the Go code uses the external `json.Marshal`; keeping the
serializer as a parameter lets the encoding-failure path of `Diff` be
exercised).  A serializer failure is wrapped in the
"Cannot marshal the edits" message. -/
def computeEditsWith (marshal : List Edit → Except String (List Nat))
    (before after : Bytes) : Except String (List Nat) :=
  let edits := computeDiff before after
  match marshal edits with
  | Except.error e => Except.error ("Cannot marshal the edits: " ++ e)
  | Except.ok delta => Except.ok delta

/-- The default serializer, modelling `json.Marshal` on the edit-script
type: total, produces the wire encoding. -/
def marshalEdits (es : List Edit) : Except String (List Nat) :=
  Except.ok (encodeEdits es)

/-- Method `computeEdits` with the serializer the Go code actually uses. -/
def computeEdits (before after : Bytes) : Except String (List Nat) :=
  computeEditsWith marshalEdits before after

instance {ε α : Type} [DecidableEq ε] [DecidableEq α] : DecidableEq (Except ε α) := fun a b =>
  match a, b with
  | Except.error e1, Except.error e2 =>
    if h : e1 = e2 then Decidable.isTrue (by rw [h])
    else Decidable.isFalse (by intro hc; cases hc; exact h rfl)
  | Except.error _, Except.ok _ => Decidable.isFalse (by intro hc; cases hc)
  | Except.ok _, Except.error _ => Decidable.isFalse (by intro hc; cases hc)
  | Except.ok a1, Except.ok a2 =>
    if h : a1 = a2 then Decidable.isTrue (by rw [h])
    else Decidable.isFalse (by intro hc; cases hc; exact h rfl)

/-- Everything observable about one `Diff` call: its return value, the
post-call tracker state, and whether the `checkpointHashReady.Wait()`
join barrier was executed before returning (`Diff` starts the hash
goroutine first, then computes the edits, and returns on an edits error
*before* reaching the `Wait()` call). -/
structure DiffOutcome where
  result : Except DiffError deploymentDiff
  state : deploymentDiffState
  hashJoined : Bool
deriving Repr, DecidableEq

/-- Method `Diff(deployment)`, parameterized by the edit-script serializer. -/
def DiffWith (marshal : List Edit → Except String (List Nat))
    (dds : deploymentDiffState) (deployment : Option Bytes) : DiffOutcome :=
  if !(CanDiff dds).1 then
    { result := Except.error (DiffError.precondition "Diff() cannot be called before Saved()")
      state := dds
      hashJoined := false }
  else
    let before := dds.lastSavedDeployment
    let after := deployment
    let checkpointHash := computeHash (rawBytes after)
    match computeEditsWith marshal (rawBytes before) (rawBytes after) with
    | Except.error e =>
      { result := Except.error (DiffError.encoding ("Cannot marshal the edits: " ++ e))
        state := dds
        hashJoined := false }
    | Except.ok delta =>
      { result := Except.ok
          { checkpointHash := checkpointHash
            deploymentDelta := delta
            sequenceNumber := dds.sequenceNumber }
        state := dds
        hashJoined := true }

/-- Method `Diff` with the serializer the Go code actually uses. -/
def Diff (dds : deploymentDiffState) (deployment : Option Bytes) : DiffOutcome :=
  DiffWith marshalEdits dds deployment

/-- Method `Saved(deployment)`: sets `lastSavedDeployment`, increments
`sequenceNumber`, returns `nil` error. -/
def Saved (dds : deploymentDiffState) (deployment : Option Bytes) :
    Except String Unit × deploymentDiffState :=
  (Except.ok (),
   { dds with
      lastSavedDeployment := deployment
      sequenceNumber := dds.sequenceNumber + 1 })

/-! ### Call traces

Reachability of tracker states under arbitrary sequences of the five
externally visible calls, with arbitrary arguments. -/

/-- One externally visible call on the tracker, with its argument. -/
inductive Call where
  | shouldDiff (new : Option Bytes)
  | canDiff
  | sequenceNumber
  | diff (deployment : Option Bytes)
  | saved (deployment : Option Bytes)
deriving Repr, DecidableEq

/-- The state after one call. -/
def step (dds : deploymentDiffState) : Call → deploymentDiffState
  | Call.shouldDiff n => (ShouldDiff dds n).2
  | Call.canDiff => (CanDiff dds).2
  | Call.sequenceNumber => (SequenceNumber dds).2
  | Call.diff d => (Diff dds d).state
  | Call.saved d => (Saved dds d).2

/-- The state after a sequence of calls. -/
def run (dds : deploymentDiffState) (cs : List Call) : deploymentDiffState :=
  cs.foldl step dds

/-- Whether a call is a `Saved` call. -/
def isSavedCall : Call → Bool
  | Call.saved _ => true
  | _ => false

/-- Whether a trace contains a `Saved` call. -/
def hasSaved (cs : List Call) : Bool := cs.any isSavedCall

/-- Number of `Saved` calls in a trace. -/
def countSaved (cs : List Call) : Nat := cs.countP isSavedCall

theorem ShouldDiff_state (dds : deploymentDiffState) (new : Option Bytes) :
    (ShouldDiff dds new).2 = dds := by
  unfold ShouldDiff
  repeat' split
  all_goals rfl

theorem DiffWith_state (marshal : List Edit → Except String (List Nat))
    (dds : deploymentDiffState) (d : Option Bytes) :
    (DiffWith marshal dds d).state = dds := by
  unfold DiffWith
  split
  · rfl
  · dsimp only
    split
    · rfl
    · rfl

theorem step_not_saved (dds : deploymentDiffState) :
    ∀ c : Call, isSavedCall c = false → step dds c = dds
  | Call.shouldDiff n, _ => ShouldDiff_state dds n
  | Call.canDiff, _ => rfl
  | Call.sequenceNumber, _ => rfl
  | Call.diff d, _ => DiffWith_state marshalEdits dds d
  | Call.saved _, h => by simp [isSavedCall] at h

theorem run_not_hasSaved (cs : List Call) :
    ∀ dds : deploymentDiffState, hasSaved cs = false → run dds cs = dds := by
  induction cs with
  | nil => intro dds _; rfl
  | cons c cs ih =>
    intro dds h
    rw [hasSaved, List.any_cons, Bool.or_eq_false_iff] at h
    obtain ⟨hc, hcs⟩ := h
    show run (step dds c) cs = dds
    rw [step_not_saved dds c hc, ih dds hcs]

theorem run_sequenceNumber (cs : List Call) :
    ∀ dds : deploymentDiffState,
      (run dds cs).sequenceNumber = dds.sequenceNumber + (countSaved cs : Int) := by
  induction cs with
  | nil => intro dds; simp [run, countSaved]
  | cons c cs ih =>
    intro dds
    show (run (step dds c) cs).sequenceNumber = _
    rw [ih]
    cases hc : isSavedCall c with
    | false =>
      rw [step_not_saved dds c hc]
      simp [countSaved, List.countP_cons, hc]
    | true =>
      cases c with
      | saved d =>
        simp [step, Saved, countSaved, List.countP_cons, isSavedCall]
        omega
      | shouldDiff n => simp [isSavedCall] at hc
      | canDiff => simp [isSavedCall] at hc
      | sequenceNumber => simp [isSavedCall] at hc
      | diff d => simp [isSavedCall] at hc

theorem run_lastSaved_isSome (cs : List Call) :
    ∀ dds : deploymentDiffState, hasSaved cs = true → Call.saved none ∉ cs →
      (run dds cs).lastSavedDeployment ≠ none := by
  induction cs with
  | nil => intro dds h _; simp [hasSaved] at h
  | cons c cs ih =>
    intro dds h hnil
    have hnil2 : Call.saved none ∉ cs := fun hm => hnil (List.mem_cons_of_mem c hm)
    show (run (step dds c) cs).lastSavedDeployment ≠ none
    cases hs : hasSaved cs with
    | true => exact ih (step dds c) hs hnil2
    | false =>
      rw [run_not_hasSaved cs (step dds c) hs]
      rw [hasSaved, List.any_cons] at h
      rw [hasSaved] at hs
      rw [hs, Bool.or_false] at h
      cases c with
      | saved d =>
        have hd : d ≠ none := by
          intro hdn
          exact hnil (by rw [hdn]; exact List.mem_cons_self _ _)
        simpa [step, Saved] using hd
      | shouldDiff n => simp [isSavedCall] at h
      | canDiff => simp [isSavedCall] at h
      | sequenceNumber => simp [isSavedCall] at h
      | diff d => simp [isSavedCall] at h

/-! ### Shared helper lemmas for the claims -/

theorem DiffWith_no_precondition (marshal : List Edit → Except String (List Nat))
    (dds : deploymentDiffState) (deployment : Option Bytes)
    (hc : (CanDiff dds).1 = true) (msg : String) :
    (DiffWith marshal dds deployment).result
      ≠ Except.error (DiffError.precondition msg) := by
  intro hcontra
  rw [DiffWith, hc] at hcontra
  simp only [Bool.not_true, Bool.false_eq_true, if_false] at hcontra
  split at hcontra <;> simp at hcontra

theorem foldl_Saved_sequenceNumber (snaps : List (Option Bytes)) :
    ∀ dds : deploymentDiffState,
      (snaps.foldl (fun s d => (Saved s d).2) dds).sequenceNumber
        = dds.sequenceNumber + (snaps.length : Int) := by
  induction snaps with
  | nil => intro dds; simp
  | cons d snaps ih =>
    intro dds
    rw [List.foldl_cons, ih]
    simp [Saved]
    omega

/-- Concrete tracker state used by the witness instances below. -/
def exampleState : deploymentDiffState :=
  { lastSavedDeployment := some [48, 49]
    sequenceNumber := 5
    minimalDiffSize := 1 }

/-- A serializer that always fails, exercising the encoding-failure path
of `Diff`. -/
def badMarshal : List Edit → Except String (List Nat) :=
  fun _ => Except.error "boom"

/-! ### The claims -/

set_option maxRecDepth 100000

/-- C1: Round trip: for every pair of byte sequences `before` and
`after`, when the tracker's baseline is `before` and `Diff(after)`
succeeds, applying the returned delta (the encoded edit script) to
`before` reconstructs exactly the bytes of `after`. -/
theorem C1_round_trip (dds : deploymentDiffState) (before after : Bytes)
    (r : deploymentDiff)
    (hb : dds.lastSavedDeployment = some before)
    (hr : (Diff dds (some after)).result = Except.ok r) :
    applyDelta r.deploymentDelta before = some after := by
  have hres : (Diff dds (some after)).result
      = Except.ok { sequenceNumber := dds.sequenceNumber
                    checkpointHash := computeHash after
                    deploymentDelta := encodeEdits (computeDiff before after) } := by
    simp [Diff, DiffWith, CanDiff, hb, computeEditsWith, marshalEdits, rawBytes]
  rw [hres] at hr
  injection hr with h
  rw [← h]
  exact applyDelta_encodeEdits_computeDiff before after

def c1Before : Bytes := [48, 49]

def c1After : Bytes := [48, 50]

def c1State : deploymentDiffState :=
  { lastSavedDeployment := some c1Before, sequenceNumber := 3, minimalDiffSize := 1 }

def c1Result : deploymentDiff :=
  ((Diff c1State (some c1After)).result).toOption.getD default

theorem C1_round_trip_witness :
    c1State.lastSavedDeployment = some c1Before ∧
    (Diff c1State (some c1After)).result = Except.ok c1Result ∧
    applyDelta c1Result.deploymentDelta c1Before = some c1After := by
  have h : (Diff c1State (some c1After)).result = Except.ok c1Result := by rfl
  exact ⟨rfl, h, C1_round_trip c1State c1Before c1After c1Result rfl h⟩

/-- C2: Heuristic gating: `ShouldDiff(candidate)` returns false exactly
when `CanDiff()` is false, or the stored baseline is shorter than the
threshold, or the candidate is shorter than the threshold; in every
other case it returns true. -/
theorem C2_heuristic_gating (dds : deploymentDiffState) (new : Option Bytes) :
    (ShouldDiff dds new).1 = false ↔
      ((CanDiff dds).1 = false ∨
        (rawLen dds.lastSavedDeployment : Int) < dds.minimalDiffSize ∨
        (rawLen new : Int) < dds.minimalDiffSize) := by
  by_cases h1 : (CanDiff dds).1 = false
  · simp [ShouldDiff, h1]
  · have h1t : (CanDiff dds).1 = true := by simpa using h1
    by_cases h2 : (rawLen dds.lastSavedDeployment : Int) < dds.minimalDiffSize
    · simp [ShouldDiff, h1t, h2]
    · by_cases h3 : (rawLen new : Int) < dds.minimalDiffSize
      · simp [ShouldDiff, h1t, h2, h3]
      · simp [ShouldDiff, h1t, h2, h3]

/-- C3: Precondition error: for every input, `Diff` called on a tracker
with no baseline present (`CanDiff()` false) fails with the
precondition error and returns no result. -/
theorem C3_diff_precondition (dds : deploymentDiffState) (deployment : Option Bytes)
    (h : (CanDiff dds).1 = false) :
    (Diff dds deployment).result
        = Except.error (DiffError.precondition "Diff() cannot be called before Saved()") ∧
    ∀ r, (Diff dds deployment).result ≠ Except.ok r := by
  have hres : (Diff dds deployment).result
      = Except.error (DiffError.precondition "Diff() cannot be called before Saved()") := by
    simp [Diff, DiffWith, h]
  exact ⟨hres, fun r hok => by rw [hres] at hok; cases hok⟩

theorem C3_diff_precondition_witness :
    (CanDiff (newDeploymentDiffState 10)).1 = false ∧
    (Diff (newDeploymentDiffState 10) (some [1, 2, 3])).result
      = Except.error (DiffError.precondition "Diff() cannot be called before Saved()") :=
  ⟨rfl, (C3_diff_precondition (newDeploymentDiffState 10) (some [1, 2, 3]) rfl).1⟩

/-- C4: Saved semantics and monotonic sequencing: `Saved` unconditionally
stores the snapshot, increments `sequenceNumber` by exactly 1, and
succeeds; after `n` successful `Saved` calls on a fresh tracker,
`SequenceNumber()` equals `n + 1`. -/
theorem C4_saved_semantics :
    (∀ (dds : deploymentDiffState) (deployment : Option Bytes),
        (Saved dds deployment).2.lastSavedDeployment = deployment ∧
        (Saved dds deployment).2.sequenceNumber = dds.sequenceNumber + 1 ∧
        (Saved dds deployment).1 = Except.ok ()) ∧
    (∀ (T : Int) (snaps : List (Option Bytes)),
        (SequenceNumber (snaps.foldl (fun s d => (Saved s d).2)
            (newDeploymentDiffState T))).1 = (snaps.length : Int) + 1) := by
  constructor
  · intro dds deployment
    exact ⟨rfl, rfl, rfl⟩
  · intro T snaps
    show (snaps.foldl (fun s d => (Saved s d).2) (newDeploymentDiffState T)).sequenceNumber = _
    rw [foldl_Saved_sequenceNumber]
    show (1 : Int) + (snaps.length : Int) = (snaps.length : Int) + 1
    omega

/-- C5 counterexample: calling `Saved` with a `nil` snapshot (a legal
`json.RawMessage` argument) leaves `lastSavedDeployment` absent while
`sequenceNumber` advances to 2, so the claimed invariant fails on this
reachable state even though a `Saved` call did occur. -/
theorem C5_counterexample :
    ¬ (((run (newDeploymentDiffState 0) [Call.saved none]).lastSavedDeployment = none) ↔
        ((run (newDeploymentDiffState 0) [Call.saved none]).sequenceNumber = 1 ∧
          hasSaved [Call.saved none] = false)) := by
  decide

/-- C5 (amended): in every tracker state reachable from a fresh tracker
by calls whose `Saved` arguments are all present (non-`nil`) snapshots,
`lastSavedDeployment` is absent iff `sequenceNumber = 1` and no `Saved`
call has yet occurred. -/
theorem C5_invariant_amended (T : Int) (cs : List Call)
    (hnil : Call.saved none ∉ cs) :
    ((run (newDeploymentDiffState T) cs).lastSavedDeployment = none ↔
      ((run (newDeploymentDiffState T) cs).sequenceNumber = 1 ∧
        hasSaved cs = false)) := by
  by_cases hs : hasSaved cs = true
  · have h1 := run_lastSaved_isSome cs (newDeploymentDiffState T) hs hnil
    constructor
    · intro h
      exact absurd h h1
    · rintro ⟨_, hfalse⟩
      rw [hfalse] at hs
      cases hs
  · have hs' : hasSaved cs = false := by simpa using hs
    rw [run_not_hasSaved cs (newDeploymentDiffState T) hs']
    simp [newDeploymentDiffState, hs']

theorem C5_invariant_amended_witness :
    (Call.saved none ∉ [Call.saved (some [7]), Call.canDiff]) ∧
    ((run (newDeploymentDiffState 10)
        [Call.saved (some [7]), Call.canDiff]).lastSavedDeployment = none ↔
      ((run (newDeploymentDiffState 10)
          [Call.saved (some [7]), Call.canDiff]).sequenceNumber = 1 ∧
        hasSaved [Call.saved (some [7]), Call.canDiff] = false)) :=
  ⟨by decide, C5_invariant_amended 10 [Call.saved (some [7]), Call.canDiff] (by decide)⟩

/-- C6: Frame: `Diff` (succeeding or failing, under any serializer),
`CanDiff`, `SequenceNumber` and `ShouldDiff` leave the tracker state —
all three fields — unchanged, and repeated read calls with unchanged
inputs yield unchanged outputs. -/
theorem C6_frame (marshal : List Edit → Except String (List Nat))
    (dds : deploymentDiffState) (input : Option Bytes) :
    (DiffWith marshal dds input).state = dds ∧
    (Diff dds input).state = dds ∧
    (CanDiff dds).2 = dds ∧
    (SequenceNumber dds).2 = dds ∧
    (ShouldDiff dds input).2 = dds ∧
    (CanDiff (CanDiff dds).2).1 = (CanDiff dds).1 ∧
    (SequenceNumber (SequenceNumber dds).2).1 = (SequenceNumber dds).1 ∧
    (ShouldDiff (ShouldDiff dds input).2 input).1 = (ShouldDiff dds input).1 := by
  refine ⟨DiffWith_state marshal dds input, DiffWith_state marshalEdits dds input, rfl, rfl,
    ShouldDiff_state dds input, rfl, rfl, ?_⟩
  rw [ShouldDiff_state dds input]

/-- C7: Result versioning: every successful `Diff` (under any
serializer) returns a `DiffResult` whose `sequenceNumber` equals the
value `SequenceNumber()` returns at the time of the call. -/
theorem C7_result_versioning (marshal : List Edit → Except String (List Nat))
    (dds : deploymentDiffState) (deployment : Option Bytes) (r : deploymentDiff)
    (hr : (DiffWith marshal dds deployment).result = Except.ok r) :
    r.sequenceNumber = (SequenceNumber dds).1 := by
  unfold DiffWith at hr
  split at hr
  · simp at hr
  · dsimp only at hr
    split at hr
    · simp at hr
    · injection hr with h
      rw [← h]
      exact rfl

def c7Result : deploymentDiff :=
  ((Diff exampleState (some [50])).result).toOption.getD default

theorem C7_result_versioning_witness :
    (DiffWith marshalEdits exampleState (some [50])).result = Except.ok c7Result ∧
    c7Result.sequenceNumber = (SequenceNumber exampleState).1 := by
  have h : (DiffWith marshalEdits exampleState (some [50])).result = Except.ok c7Result := by
    rfl
  exact ⟨h, C7_result_versioning marshalEdits exampleState (some [50]) c7Result h⟩

/-- C8: Checkpoint hash content: every successful `Diff(candidate)`
returns a `checkpointHash` equal to the hex encoding of the SHA-256
digest (a fixed-length 64-character string) computed over the raw bytes
of the candidate snapshot, independent of the baseline. -/
theorem C8_checkpoint_hash (dds : deploymentDiffState) (deployment : Option Bytes)
    (r : deploymentDiff)
    (hr : (Diff dds deployment).result = Except.ok r) :
    r.checkpointHash = computeHash (rawBytes deployment) ∧
    r.checkpointHash = hexEncodeToString (sha256Sum (rawBytes deployment)) ∧
    r.checkpointHash.length = 64 := by
  have hch : r.checkpointHash = computeHash (rawBytes deployment) := by
    unfold Diff DiffWith at hr
    split at hr
    · simp at hr
    · dsimp only at hr
      split at hr
      · simp at hr
      · injection hr with h
        rw [← h]
  refine ⟨hch, by rw [hch]; rfl, ?_⟩
  rw [hch, computeHash, hexEncodeToString_length, sha256Sum_length]

def c8Result : deploymentDiff :=
  ((Diff exampleState (some [51])).result).toOption.getD default

theorem C8_checkpoint_hash_witness :
    (Diff exampleState (some [51])).result = Except.ok c8Result ∧
    c8Result.checkpointHash = computeHash [51] ∧
    c8Result.checkpointHash = hexEncodeToString (sha256Sum [51]) ∧
    c8Result.checkpointHash.length = 64 := by
  have h : (Diff exampleState (some [51])).result = Except.ok c8Result := by rfl
  have h2 := C8_checkpoint_hash exampleState (some [51]) c8Result h
  exact ⟨h, h2.1, h2.2.1, h2.2.2⟩

/-- C9 counterexample: with a failing serializer, the encoding step
inside `Diff` fails, and `Diff` returns the encoding error *without*
having executed the `checkpointHashReady.Wait()` join barrier (the
error return at the `computeEdits` call site precedes the `Wait()`), so
the claim's "after both concurrent computations have been joined" is
false at this input. -/
theorem C9_counterexample :
    ¬ (((DiffWith badMarshal exampleState (some [50, 51])).result
          = Except.error (DiffError.encoding
              ("Cannot marshal the edits: " ++ ("Cannot marshal the edits: " ++ "boom")))) →
        (DiffWith badMarshal exampleState (some [50, 51])).hashJoined = true) := by
  decide

/-- C9 (amended): whenever the edit-script encoding step inside `Diff`
fails, the whole `Diff` operation fails with an encoding error, no
`DiffResult` (partial or otherwise) is returned, the already-computed
hash is discarded, and the tracker state is unchanged — but the error
is returned *without* waiting on the join barrier for the concurrent
hash computation. -/
theorem C9_encoding_failure (marshal : List Edit → Except String (List Nat))
    (dds : deploymentDiffState) (deployment : Option Bytes) (e : String)
    (hc : (CanDiff dds).1 = true)
    (hm : marshal (computeDiff (rawBytes dds.lastSavedDeployment) (rawBytes deployment))
        = Except.error e) :
    (DiffWith marshal dds deployment).result
        = Except.error (DiffError.encoding
            ("Cannot marshal the edits: " ++ ("Cannot marshal the edits: " ++ e))) ∧
    (∀ r, (DiffWith marshal dds deployment).result ≠ Except.ok r) ∧
    (DiffWith marshal dds deployment).state = dds ∧
    (DiffWith marshal dds deployment).hashJoined = false := by
  have hce : computeEditsWith marshal (rawBytes dds.lastSavedDeployment)
      (rawBytes deployment) = Except.error ("Cannot marshal the edits: " ++ e) := by
    rw [computeEditsWith]
    rw [hm]
  have hout : DiffWith marshal dds deployment
      = { result := Except.error (DiffError.encoding
            ("Cannot marshal the edits: " ++ ("Cannot marshal the edits: " ++ e)))
          state := dds
          hashJoined := false } := by
    rw [DiffWith, hc]
    simp only [Bool.not_true, Bool.false_eq_true, if_false]
    rw [hce]
  refine ⟨by rw [hout], fun r hok => ?_, by rw [hout], by rw [hout]⟩
  rw [hout] at hok
  cases hok

theorem C9_encoding_failure_witness :
    (CanDiff exampleState).1 = true ∧
    badMarshal (computeDiff (rawBytes exampleState.lastSavedDeployment)
        (rawBytes (some [52]))) = Except.error "boom" ∧
    (DiffWith badMarshal exampleState (some [52])).result
      = Except.error (DiffError.encoding
          ("Cannot marshal the edits: " ++ ("Cannot marshal the edits: " ++ "boom"))) ∧
    (DiffWith badMarshal exampleState (some [52])).state = exampleState ∧
    (DiffWith badMarshal exampleState (some [52])).hashJoined = false := by
  have h := C9_encoding_failure badMarshal exampleState (some [52]) "boom" rfl rfl
  exact ⟨rfl, rfl, h.1, h.2.2.1, h.2.2.2⟩

/-- C10: Gating implies precondition: whenever `ShouldDiff(candidate)`
returns true, `CanDiff()` is true, and a subsequent `Diff(candidate)` on
the unchanged state cannot fail with the precondition error, under any
serializer. -/
theorem C10_gating_implies_precondition (dds : deploymentDiffState) (new : Option Bytes)
    (h : (ShouldDiff dds new).1 = true) :
    (CanDiff dds).1 = true ∧
    ∀ (marshal : List Edit → Except String (List Nat)) (msg : String),
      (DiffWith marshal dds new).result
        ≠ Except.error (DiffError.precondition msg) := by
  have hc : (CanDiff dds).1 = true := by
    cases hcc : (CanDiff dds).1 with
    | true => rfl
    | false =>
      rw [ShouldDiff, hcc] at h
      simp at h
  exact ⟨hc, fun marshal msg => DiffWith_no_precondition marshal dds new hc msg⟩

def gateState : deploymentDiffState :=
  { lastSavedDeployment := some [48, 49, 50]
    sequenceNumber := 2
    minimalDiffSize := 2 }

theorem C10_gating_implies_precondition_witness :
    (ShouldDiff gateState (some [48, 49])).1 = true ∧
    (CanDiff gateState).1 = true ∧
    (DiffWith badMarshal gateState (some [48, 49])).result
      ≠ Except.error (DiffError.precondition "Diff() cannot be called before Saved()") := by
  have h : (ShouldDiff gateState (some [48, 49])).1 = true := by decide
  exact ⟨h, (C10_gating_implies_precondition gateState (some [48, 49]) h).1,
    (C10_gating_implies_precondition gateState (some [48, 49]) h).2 badMarshal _⟩

end Httpstate

